import Mathlib

/-!
# Verification of the quotation generator's core logic

Shallow embedding of the quote-assembly core of `src/app.py`
(normalization, quote assembly `build_quotes`, the fee join with
`validate="1:1"`, the totals chain `compute_totals`, and the Indian-style
money formatter `money_inr`), together with theorems settling the frozen
claims about the program.

Strings are modelled with Lean `String`; the transformations
(`strip`/`upper`/`title`/regex word substitutions) are implemented by
structural recursion over the character list, with Python's semantics on
the ASCII data this program handles.  Python `float` arithmetic is
modelled with `ℚ`; Python's `round` (round half to even) is modelled by
`roundHalfEven` below.
-/

namespace QuotationApp

/-- Python `str.strip()`: drop whitespace from both ends. -/
def trimChars (l : List Char) : List Char :=
  ((l.dropWhile Char.isWhitespace).reverse.dropWhile Char.isWhitespace).reverse

/-- Python `str.upper()` (ASCII). -/
def upperChars (l : List Char) : List Char :=
  l.map Char.toUpper

/-- `normalize_str` of `src/app.py` applied to a plain (never-`None`)
string, as the code does for selections and constants:
`x.strip().upper()`. -/
def normStr (s : String) : String :=
  String.mk (upperChars (trimChars s.data))

/-- `normalize_str` of `src/app.py` on an optional cell:
`(x or "").strip().upper()`. -/
def normalize_str (x : Option String) : String :=
  normStr (x.getD "")

/-- Python `str.split()` (no argument): maximal whitespace-free words. -/
def splitWsAux : List Char → List Char → List (List Char)
  | [], acc => if acc = [] then [] else [acc.reverse]
  | c :: rest, acc =>
    if c.isWhitespace then
      if acc = [] then splitWsAux rest []
      else acc.reverse :: splitWsAux rest []
    else splitWsAux rest (c :: acc)

def pyWords (l : List Char) : List (List Char) :=
  splitWsAux l []

/-- Join pieces with a single separator character (`sep.join(...)`). -/
def joinSep (sep : Char) : List (List Char) → List Char
  | [] => []
  | [w] => w
  | w :: ws => w ++ sep :: joinSep sep ws

/-- Python `str.title()` on ASCII text: a letter directly after a cased
(alphabetic) character is lower-cased, any other letter is upper-cased. -/
def titleCore : List Char → Bool → List Char
  | [], _ => []
  | c :: rest, prevCased =>
    if c.isAlpha then
      (if prevCased then c.toLower else c.toUpper) :: titleCore rest true
    else
      c :: titleCore rest false

/-- `ACRONYMS` of `src/app.py`. -/
def ACRONYMS : List String :=
  ["GST", "GSTR", "PTEC", "PTRC", "ADT", "ROC", "TDS", "AOC", "MGT",
   "26QB", "26QC", "DIR", "MSME", "KYC"]

/-- A regex word character (`\w`): letter, digit or underscore. -/
def isWordChar (c : Char) : Bool :=
  c.isAlphanum || c = '_'

/-- Split a character list into maximal runs of word / non-word
characters (the boundaries of regex `\b...\b` matches). The flag records
whether the run consists of word characters. -/
def wordRuns : List Char → List (Bool × List Char)
  | [] => []
  | c :: rest =>
    match wordRuns rest with
    | [] => [(isWordChar c, [c])]
    | (b, run) :: rs =>
      if isWordChar c = b then (b, c :: run) :: rs
      else (isWordChar c, [c]) :: (b, run) :: rs

/-- The per-word effect of `re.sub(r"\bOf\b", "of", ·, IGNORECASE)`
followed by the case-insensitive whole-word acronym restorations of
`title_with_acronyms`: a word run equal (ignoring case) to `Of` becomes
`of`, a word run equal (ignoring case) to an entry of `ACRONYMS` becomes
that upper-case entry.  (A `\btoken\b` match of an all-word-character
token is exactly a maximal word run equal to the token.) -/
def replaceRun (w : List Char) : List Char :=
  let up := String.mk (upperChars w)
  if up = "OF" then "of".data
  else if ACRONYMS.contains up then up.data
  else w

/-- `title_with_acronyms` of `src/app.py`:
`" ".join(str(text).split()).title()`, then `\bOf\b → of`, then the
acronym restorations. -/
def title_with_acronyms (text : String) : String :=
  let t := titleCore (joinSep ' ' (pyWords text.data)) false
  String.mk (((wordRuns t).map
    (fun br => if br.1 then replaceRun br.2 else br.2)).flatten)

/-- `SUBSERVICE_RENAMES` of `src/app.py`. -/
def SUBSERVICE_RENAMES : List (String × String) :=
  [("CHANGE OF ADDRESS IN GST", "GST Amendment"),
   ("DIR 12", "DIR 12"),
   ("MSME APPLICATION", "MSME Application"),
   ("ROC E-KYC FOR DIRECTORS", "ROC E-KYC For Directors")]

/-- `subservice_display_override` of `src/app.py`. -/
def subservice_display_override (rawUpper pretty : String) : String :=
  match SUBSERVICE_RENAMES.lookup rawUpper with
  | some v => v
  | none => pretty

/-- `service_display_override` of `src/app.py`. -/
def service_display_override (rawUpper pretty : String) : String :=
  if rawUpper = "FILING OF GSTR RETURNS" then "Filing of GST Returns"
  else pretty

/-- Display form of a normalized service name, as computed in
`_merge_and_format`. -/
def displayService (raw : String) : String :=
  service_display_override raw (title_with_acronyms raw)

/-- Display form of a normalized sub-service name, as computed in
`_merge_and_format`. -/
def displaySub (raw : String) : String :=
  subservice_display_override raw (title_with_acronyms raw)

/-- Python's `round` on an exact rational: round half to even. -/
def roundHalfEven (q : ℚ) : ℤ :=
  let f := ⌊q⌋
  let r := q - (f : ℚ)
  if r < 1/2 then f
  else if 1/2 < r then f + 1
  else if f % 2 = 0 then f else f + 1

/-- Python `round(x, 2)`: round to two decimal places, half to even. -/
def round2 (q : ℚ) : ℚ :=
  (roundHalfEven (q * 100) : ℚ) / 100

/-- `GST_RATE_FIXED` of `src/app.py`. -/
def GST_RATE_FIXED : ℚ := 18

/-- `compute_totals` of `src/app.py` (lines 185–192).  The caller passes
the fee column of the `Include = true` rows; `pd.to_numeric(...).fillna(0)`
has already produced numbers, so the input is the list of fees. -/
def compute_totals (fees : List ℚ) (discount_pct : ℚ) :
    ℚ × ℚ × ℚ × ℚ × ℚ :=
  let subtotal := fees.sum
  let discount_amt := round2 (subtotal * discount_pct / 100)
  let taxable := max (subtotal - discount_amt) 0
  let gst_amt := round2 (taxable * GST_RATE_FIXED / 100)
  let grand := round2 (taxable + gst_amt)
  (subtotal, discount_amt, taxable, gst_amt, grand)

/-!
## Data model and loader (`load_matrices`, lines 110–120)
-/

/-- A normalized applicability row (after `load_matrices`). -/
structure AppRow where
  service : String
  subService : String
  clientType : String
  applicable : Bool
deriving DecidableEq, Repr

/-- A normalized fee row (after `load_matrices`). -/
structure FeeRow where
  service : String
  subService : String
  clientType : String
  feeINR : ℚ
deriving DecidableEq, Repr

/-- A raw applicability row as read from the sheet, after
`fillna("")`-style absence handling: each text cell is `none` when
absent.  The `Applicable` cell is modelled by its Python string form
(`astype(str)` of the cell; an absent cell was already `fillna`-ed to the
empty string). -/
structure RawAppRow where
  service : Option String
  subService : Option String
  clientType : Option String
  applicable : Option String
deriving Repr

/-- A raw `FeeINR` cell: a parsable number, an unparsable text, or an
absent cell (`pd.to_numeric(·, errors="coerce")` turns the latter two
into `NaN`). -/
inductive FeeCell where
  | num (q : ℚ)
  | unparsable
  | absent
deriving DecidableEq, Repr

structure RawFeeRow where
  service : Option String
  subService : Option String
  clientType : Option String
  feeINR : FeeCell
deriving Repr

/-- `df_app["Applicable"].astype(str).str.upper().isin(["TRUE","1","YES"])`. -/
def parseApplicable (s : String) : Bool :=
  ["TRUE", "1", "YES"].contains (String.mk (upperChars s.data))

/-- `pd.to_numeric(·, errors="coerce").fillna(0.0)`. -/
def parseFee : FeeCell → ℚ
  | .num q => q
  | .unparsable => 0
  | .absent => 0

/-- The per-row normalization `load_matrices` performs on the
`Applicability` sheet. -/
def loadAppRow (r : RawAppRow) : AppRow :=
  { service := normalize_str r.service
    subService := normalize_str r.subService
    clientType := normalize_str r.clientType
    applicable := parseApplicable (r.applicable.getD "") }

/-- The per-row normalization `load_matrices` performs on the `Fees`
sheet. -/
def loadFeeRow (r : RawFeeRow) : FeeRow :=
  { service := normalize_str r.service
    subService := normalize_str r.subService
    clientType := normalize_str r.clientType
    feeINR := parseFee r.feeINR }

/-!
## Quote assembly (`build_quotes`, lines 122–183)
-/

/-- A projected applicability row (`Service`, `SubService`, `ClientType`)
as carried through the filters of `build_quotes`. -/
structure KeyRow where
  service : String
  subService : String
  clientType : String
deriving DecidableEq, Repr

/-- A formatted output line of `_merge_and_format` (`Service`, `Details`,
`Annual Fees (Rs.)`). -/
structure QuoteLine where
  service : String
  details : String
  fee : ℚ
deriving DecidableEq, Repr

def EVENT_SERVICE : String := "EVENT BASED FILING"

def PT_SERVICE : String := "PROFESSION TAX RETURNS"

/-- `FORCE_EVENT_SUBS` of `src/app.py`. -/
def FORCE_EVENT_SUBS : List String :=
  ["FILING OF TDS RETURN IN FORM 26QB",
   "FILING OF TDS RETURN IN FORM 26QC",
   "FILING OF TDS RETURN IN FORM 27Q"]

/-- `df_app.query("ClientType == @ct and Applicable == True")`, projected
to the three key columns. -/
def applicableRows (clientType : String) (dfApp : List AppRow) : List KeyRow :=
  (dfApp.filter (fun r => r.clientType == normStr clientType && r.applicable)).map
    (fun r => ⟨r.service, r.subService, r.clientType⟩)

/-- The accounting single-choice step (lines 135–141): Python keeps the
rows unchanged when `selected_accounting` is falsy (`None` or the empty
string); otherwise it concatenates the non-accounting rows with the
accounting rows whose `SubService` equals the normalized selection. -/
def afterAccounting (sel : Option String) (rows : List KeyRow) : List KeyRow :=
  match sel with
  | none => rows
  | some s =>
    if s = "" then rows
    else
      rows.filter (fun r => !(r.service == "ACCOUNTING")) ++
        rows.filter (fun r => r.service == "ACCOUNTING" &&
          r.subService == normStr s)

/-- `split_main_vs_event` (lines 122–124), main part. -/
def splitMain (rows : List KeyRow) : List KeyRow :=
  rows.filter (fun r => !(r.service == normStr EVENT_SERVICE))

/-- `split_main_vs_event` (lines 122–124), event part. -/
def splitEvent (rows : List KeyRow) : List KeyRow :=
  rows.filter (fun r => r.service == normStr EVENT_SERVICE)

/-- The profession-tax single-choice step (lines 146–153): applied only
when `selected_pt_sub is not None` (an empty-string selection does
filter). -/
def afterPt (selPt : Option String) (rows : List KeyRow) : List KeyRow :=
  match selPt with
  | none => rows
  | some p =>
    rows.filter (fun r => !(r.service == normStr PT_SERVICE)) ++
      rows.filter (fun r => r.service == normStr PT_SERVICE &&
        r.subService == normStr p)

/-- Lines 155–159, main side: rows whose `SubService` is forced to the
event bucket are removed from the main rows.  (The code guards the move
with `if force_mask.any()`; when no row is forced the concat/filter below
are identities, so the guard is behaviour-preserving.) -/
def forceKeep (rows : List KeyRow) : List KeyRow :=
  rows.filter (fun r => !(FORCE_EVENT_SUBS.contains r.subService))

/-- Lines 155–159, moved side: the forced rows appended to the event
rows. -/
def forceMoved (rows : List KeyRow) : List KeyRow :=
  rows.filter (fun r => FORCE_EVENT_SUBS.contains r.subService)

/-- The main-bucket key rows reaching the fee join. -/
def mainKeyRows (clientType : String) (dfApp : List AppRow)
    (accSel ptSel : Option String) : List KeyRow :=
  forceKeep (afterPt ptSel (splitMain (afterAccounting accSel
    (applicableRows clientType dfApp))))

/-- The event-bucket key rows reaching the fee join. -/
def eventKeyRows (clientType : String) (dfApp : List AppRow)
    (accSel ptSel : Option String) : List KeyRow :=
  splitEvent (afterAccounting accSel (applicableRows clientType dfApp)) ++
    forceMoved (afterPt ptSel (splitMain (afterAccounting accSel
      (applicableRows clientType dfApp))))

def rowKeyOf (r : KeyRow) : String × String × String :=
  (r.service, r.subService, r.clientType)

def feeKeyOf (f : FeeRow) : String × String × String :=
  (f.service, f.subService, f.clientType)

/-- The fee a left-joined row receives: the matching fee row's `FeeINR`,
or `0` after `fillna(0.0)` when there is no match. -/
def feeFor (r : KeyRow) (dfFees : List FeeRow) : ℚ :=
  match dfFees.find? (fun f => feeKeyOf f == rowKeyOf r) with
  | some f => f.feeINR
  | none => 0

/-- One formatted output row: display-cased `Service` and `Details`
columns plus the joined fee. -/
def toLine (r : KeyRow) (fee : ℚ) : QuoteLine :=
  ⟨displayService r.service, displaySub r.subService, fee⟩

/-- Python's `str` comparison: strict lexicographic order on the code
points. -/
def charListLt : List Char → List Char → Bool
  | [], [] => false
  | [], _ :: _ => true
  | _ :: _, [] => false
  | a :: as, b :: bs => if a = b then charListLt as bs else decide (a < b)

def strLt (a b : String) : Bool :=
  charListLt a.data b.data

/-- The final `q.sort_values(["Service", "SubService"])` comparison: it
runs after the display-casing, so it compares the display-cased pairs
(Python tuple order on code points, ties keeping a deterministic
order). -/
def lineLeB (a b : QuoteLine) : Bool :=
  if a.service = b.service then !(strLt b.details a.details)
  else strLt a.service b.service

def lineLE (a b : QuoteLine) : Prop :=
  lineLeB a b = true

instance : DecidableRel lineLE := fun a b =>
  inferInstanceAs (Decidable (lineLeB a b = true))

instance {ε α : Type} [DecidableEq ε] [DecidableEq α] :
    DecidableEq (Except ε α) := fun x y =>
  match x, y with
  | .error a, .error b =>
    if h : a = b then isTrue (by rw [h]) else isFalse (by simp [h])
  | .ok a, .ok b =>
    if h : a = b then isTrue (by rw [h]) else isFalse (by simp [h])
  | .error _, .ok _ => isFalse (by simp)
  | .ok _, .error _ => isFalse (by simp)

/-- `_merge_and_format` (lines 162–178): empty input short-circuits to an
empty table; otherwise the left join must be one-to-one
(`validate="1:1"` checks that the key is unique in the left *and* the
right table, raising `MergeError` otherwise), each surviving row gets its
fee (or 0), the key columns are display-cased, and the rows are sorted by
the resulting (`Service`, `Details`) pair. -/
def mergeFormat (dfIn : List KeyRow) (dfFees : List FeeRow) :
    Except String (List QuoteLine) :=
  if dfIn = [] then .ok []
  else if (dfIn.map rowKeyOf).Nodup ∧ (dfFees.map feeKeyOf).Nodup then
    .ok (List.insertionSort lineLE
      (dfIn.map (fun r => toLine r (feeFor r dfFees))))
  else .error "Merge keys are not unique in either left or right dataset"

/-- `build_quotes` (lines 126–183): returns the main table, the event
table and the main total; a `MergeError` from either join propagates. -/
def build_quotes (clientName clientType : String) (dfApp : List AppRow)
    (dfFees : List FeeRow) (selectedAccounting selectedPtSub : Option String) :
    Except String (List QuoteLine × List QuoteLine × ℚ) :=
  match mergeFormat (mainKeyRows clientType dfApp selectedAccounting selectedPtSub) dfFees with
  | .error e => .error e
  | .ok mainDf =>
    match mergeFormat (eventKeyRows clientType dfApp selectedAccounting selectedPtSub) dfFees with
    | .error e => .error e
    | .ok eventDf => .ok (mainDf, eventDf, (mainDf.map QuoteLine.fee).sum)

/-!
## Money formatting (`money_inr`, lines 90–108)
-/

/-- The input to `money_inr`: a value `float(n)` accepts, or one on which
`float(n)` raises. -/
inductive MoneyInput where
  | num (q : ℚ)
  | unparsable
deriving DecidableEq, Repr

/-- The `while len(s) > 2` grouping loop of `money_inr`, processing the
remaining leading digits from the right.  The first argument is the
*reversed* remaining digit list (so peeling `s[-2:]`/`s[:-2]` is
structural); `res` is the accumulated suffix.  The loop body is
`res = s[-2:] + "," + res; s = s[:-2]`, and on exit `if s: res = s + ","
+ res`. -/
def groupLoop : List Char → List Char → List Char
  | [], res => res
  | [c], res => c :: ',' :: res
  | a :: b :: rest, res =>
    if rest = [] then b :: a :: ',' :: res
    else groupLoop rest (b :: a :: ',' :: res)

/-- The digit-grouping of `money_inr`: up to three digits are kept as-is,
otherwise the last three digits form the final group and the loop above
peels two at a time from the rest. -/
def inrGroup (s : List Char) : List Char :=
  if s.length ≤ 3 then s
  else groupLoop (s.take (s.length - 3)).reverse (s.drop (s.length - 3))

/-- `money_inr` of `src/app.py` (lines 90–108). -/
def money_inr (x : MoneyInput) : String :=
  match x with
  | .unparsable => "0"
  | .num q =>
    let n : ℕ := (roundHalfEven q).natAbs
    let res := String.mk (inrGroup (Nat.repr n).data)
    if q < 0 then "-" ++ res else res

/-!
## Order lemmas for the sort comparison
-/

theorem charListLt_irrefl (l : List Char) : charListLt l l = false := by
  induction l with
  | nil => rfl
  | cons a as ih => simp [charListLt, ih]

theorem charListLt_trans : ∀ {a b c : List Char},
    charListLt a b = true → charListLt b c = true → charListLt a c = true
  | [], _ :: _, _ :: _, _, _ => rfl
  | [], [], _, hab, _ => by simp [charListLt] at hab
  | [], _ :: _, [], _, hbc => by simp [charListLt] at hbc
  | _ :: _, [], _, hab, _ => by simp [charListLt] at hab
  | _ :: _, _ :: _, [], _, hbc => by simp [charListLt] at hbc
  | a :: as, b :: bs, c :: cs, hab, hbc => by
    simp only [charListLt] at hab hbc ⊢
    by_cases hab1 : a = b
    · subst hab1
      by_cases hbc1 : a = c
      · subst hbc1
        simp only [if_pos rfl] at hab hbc ⊢
        exact charListLt_trans hab hbc
      · simpa [hbc1] using hbc
    · by_cases hbc1 : b = c
      · subst hbc1
        simpa [hab1] using hab
      · rw [if_neg hab1] at hab
        rw [if_neg hbc1] at hbc
        have h1 : a < b := of_decide_eq_true hab
        have h2 : b < c := of_decide_eq_true hbc
        have h3 : a < c := lt_trans h1 h2
        simp [ne_of_lt h3, h3]

theorem charListLt_conn : ∀ {a b : List Char},
    a ≠ b → charListLt a b = false → charListLt b a = true
  | [], [], hne, _ => absurd rfl hne
  | [], _ :: _, _, hab => by simp [charListLt] at hab
  | _ :: _, [], _, _ => rfl
  | a :: as, b :: bs, hne, hab => by
    simp only [charListLt] at hab ⊢
    by_cases h1 : a = b
    · subst h1
      rw [if_pos rfl] at hab
      have hne2 : as ≠ bs := fun h => hne (congrArg (fun l => a :: l) h)
      simp [charListLt_conn hne2 hab]
    · rw [if_neg h1] at hab
      have hnotlt : ¬ a < b := of_decide_eq_false hab
      have hba : b < a := lt_of_le_of_ne (le_of_not_lt hnotlt) (Ne.symm h1)
      simp [Ne.symm h1, hba]

theorem strLt_irrefl (s : String) : strLt s s = false :=
  charListLt_irrefl s.data

theorem strLt_trans {a b c : String} (h1 : strLt a b = true)
    (h2 : strLt b c = true) : strLt a c = true :=
  charListLt_trans h1 h2

theorem strLt_conn {a b : String} (hne : a ≠ b) (h : strLt a b = false) :
    strLt b a = true := by
  apply charListLt_conn _ h
  intro hd
  exact hne (by cases a; cases b; exact congrArg String.mk hd)

theorem strLt_ne {a b : String} (h : strLt a b = true) : a ≠ b := by
  intro he
  subst he
  rw [strLt_irrefl] at h
  exact Bool.noConfusion h

theorem strLt_asymm {a b : String} (h1 : strLt a b = true) :
    strLt b a = false := by
  cases h : strLt b a with
  | false => rfl
  | true =>
    have h2 := strLt_trans h1 h
    rw [strLt_irrefl] at h2
    exact Bool.noConfusion h2

/-- Weak transitivity of the non-strict side of `strLt`. -/
theorem strLe_trans {a b c : String} (h1 : strLt b a = false)
    (h2 : strLt c b = false) : strLt c a = false := by
  cases h : strLt c a with
  | false => rfl
  | true =>
    exfalso
    by_cases he : c = b
    · rw [he] at h
      rw [h] at h1
      exact Bool.noConfusion h1
    · have hbc := strLt_conn he h2
      have := strLt_trans hbc h
      rw [this] at h1
      exact Bool.noConfusion h1

instance : IsTotal QuoteLine lineLE := by
  constructor
  intro a b
  unfold lineLE lineLeB
  by_cases hs : a.service = b.service
  · rw [if_pos hs, if_pos hs.symm]
    cases hd : strLt b.details a.details with
    | false => left; rfl
    | true =>
      right
      rw [Bool.not_eq_true']
      exact strLt_asymm hd
  · rw [if_neg hs, if_neg (Ne.symm hs)]
    cases h1 : strLt a.service b.service with
    | true => exact Or.inl rfl
    | false => exact Or.inr (strLt_conn hs h1)

instance : IsTrans QuoteLine lineLE := by
  constructor
  intro a b c hab hbc
  unfold lineLE lineLeB at hab hbc ⊢
  by_cases h1 : a.service = b.service <;> by_cases h2 : b.service = c.service
  · rw [if_pos h1] at hab
    rw [if_pos h2] at hbc
    rw [if_pos (h1.trans h2)]
    rw [Bool.not_eq_true'] at hab hbc ⊢
    exact strLe_trans hab hbc
  · rw [if_pos h1] at hab
    rw [if_neg h2] at hbc
    rw [if_neg (fun h => h2 (h1.symm.trans h)), h1]
    exact hbc
  · rw [if_neg h1] at hab
    rw [if_pos h2] at hbc
    rw [if_neg (fun h => h1 (h.trans h2.symm)), ← h2]
    exact hab
  · rw [if_neg h1] at hab
    rw [if_neg h2] at hbc
    have h3 : strLt a.service c.service = true := strLt_trans hab hbc
    rw [if_neg (strLt_ne h3)]
    exact h3

/-!
## Structural lemmas about the fee join and the assembly stages
-/

theorem mergeFormat_nil (dfFees : List FeeRow) : mergeFormat [] dfFees = .ok [] := by
  simp [mergeFormat]

theorem mergeFormat_valid_eq {dfIn : List KeyRow} {dfFees : List FeeRow}
    (hne : dfIn ≠ []) (hL : (dfIn.map rowKeyOf).Nodup)
    (hR : (dfFees.map feeKeyOf).Nodup) :
    mergeFormat dfIn dfFees =
      .ok (List.insertionSort lineLE
        (dfIn.map (fun r => toLine r (feeFor r dfFees)))) := by
  rw [mergeFormat, if_neg hne, if_pos ⟨hL, hR⟩]

theorem mergeFormat_dup_error {dfIn : List KeyRow} {dfFees : List FeeRow}
    (hne : dfIn ≠ []) (hdup : ¬ ((dfIn.map rowKeyOf).Nodup ∧ (dfFees.map feeKeyOf).Nodup)) :
    mergeFormat dfIn dfFees =
      .error "Merge keys are not unique in either left or right dataset" := by
  rw [mergeFormat, if_neg hne, if_neg hdup]

/-- Every line of a successful join comes from a surviving input row,
display-cased and carrying that row's joined fee. -/
theorem mergeFormat_ok_mem {dfIn : List KeyRow} {dfFees : List FeeRow}
    {ls : List QuoteLine} (h : mergeFormat dfIn dfFees = .ok ls) :
    ∀ l ∈ ls, ∃ r ∈ dfIn, l = toLine r (feeFor r dfFees) := by
  intro l hl
  rcases eq_or_ne dfIn [] with hnil | hne
  · subst hnil
    rw [mergeFormat_nil] at h
    cases h
    cases hl
  · by_cases hv : (dfIn.map rowKeyOf).Nodup ∧ (dfFees.map feeKeyOf).Nodup
    · rw [mergeFormat_valid_eq hne hv.1 hv.2] at h
      cases h
      have hmem := (List.perm_insertionSort lineLE
        (dfIn.map (fun r => toLine r (feeFor r dfFees)))).mem_iff.mp hl
      rcases List.mem_map.mp hmem with ⟨r, hr, hline⟩
      exact ⟨r, hr, hline.symm⟩
    · rw [mergeFormat_dup_error hne hv] at h
      cases h

/-- Conversely, every surviving input row contributes its line to a
successful join. -/
theorem mergeFormat_mem_ok {dfIn : List KeyRow} {dfFees : List FeeRow}
    {ls : List QuoteLine} (h : mergeFormat dfIn dfFees = .ok ls)
    {r : KeyRow} (hr : r ∈ dfIn) :
    toLine r (feeFor r dfFees) ∈ ls := by
  have hne : dfIn ≠ [] := fun hnil => by subst hnil; cases hr
  by_cases hv : (dfIn.map rowKeyOf).Nodup ∧ (dfFees.map feeKeyOf).Nodup
  · rw [mergeFormat_valid_eq hne hv.1 hv.2] at h
    cases h
    exact (List.perm_insertionSort lineLE _).mem_iff.mpr
      (List.mem_map.mpr ⟨r, hr, rfl⟩)
  · rw [mergeFormat_dup_error hne hv] at h
    cases h

/-- A successful join's output is sorted by the display-cased pair. -/
theorem mergeFormat_ok_sorted {dfIn : List KeyRow} {dfFees : List FeeRow}
    {ls : List QuoteLine} (h : mergeFormat dfIn dfFees = .ok ls) :
    List.Sorted lineLE ls := by
  rcases eq_or_ne dfIn [] with hnil | hne
  · subst hnil
    rw [mergeFormat_nil] at h
    cases h
    exact List.sorted_nil
  · by_cases hv : (dfIn.map rowKeyOf).Nodup ∧ (dfFees.map feeKeyOf).Nodup
    · rw [mergeFormat_valid_eq hne hv.1 hv.2] at h
      cases h
      exact List.sorted_insertionSort lineLE _
    · rw [mergeFormat_dup_error hne hv] at h
      cases h

/-- When there is no fee row matching a surviving row's key, the joined
fee is the `fillna` default `0`. -/
theorem feeFor_no_match {r : KeyRow} {dfFees : List FeeRow}
    (h : ∀ f ∈ dfFees, feeKeyOf f ≠ rowKeyOf r) : feeFor r dfFees = 0 := by
  rw [feeFor, List.find?_eq_none.mpr]
  intro f hf
  simpa using h f hf

/-- Inversion of `build_quotes`: a successful run is exactly a successful
main join, a successful event join, and the main fees' sum as total. -/
theorem build_quotes_ok_iff {n ct : String} {dfApp : List AppRow}
    {dfFees : List FeeRow} {acc pt : Option String}
    {m e : List QuoteLine} {t : ℚ} :
    build_quotes n ct dfApp dfFees acc pt = .ok (m, e, t) ↔
      mergeFormat (mainKeyRows ct dfApp acc pt) dfFees = .ok m ∧
      mergeFormat (eventKeyRows ct dfApp acc pt) dfFees = .ok e ∧
      t = (m.map QuoteLine.fee).sum := by
  rw [build_quotes]
  cases hm : mergeFormat (mainKeyRows ct dfApp acc pt) dfFees with
  | error s => simp
  | ok m0 =>
    cases he : mergeFormat (eventKeyRows ct dfApp acc pt) dfFees with
    | error s => simp
    | ok e0 =>
      constructor
      · intro h
        cases h
        exact ⟨rfl, rfl, rfl⟩
      · rintro ⟨h1, h2, h3⟩
        cases h1
        cases h2
        rw [h3]

/-- Membership in the accounting-filtered rows is membership in the
original rows (the stage only drops or reorders rows). -/
theorem afterAccounting_subset {sel : Option String} {rows : List KeyRow}
    {r : KeyRow} (h : r ∈ afterAccounting sel rows) : r ∈ rows := by
  cases sel with
  | none => exact h
  | some s =>
    rw [afterAccounting] at h
    by_cases hs : s = ""
    · rw [if_pos hs] at h
      exact h
    · rw [if_neg hs] at h
      rcases List.mem_append.mp h with h1 | h1
      · exact (List.mem_filter.mp h1).1
      · exact (List.mem_filter.mp h1).1

theorem afterPt_subset {sel : Option String} {rows : List KeyRow}
    {r : KeyRow} (h : r ∈ afterPt sel rows) : r ∈ rows := by
  cases sel with
  | none => exact h
  | some s =>
    rcases List.mem_append.mp h with h1 | h1
    · exact (List.mem_filter.mp h1).1
    · exact (List.mem_filter.mp h1).1

/-- A row of a non-single-choice service passes the accounting stage
untouched. -/
theorem afterAccounting_keep {sel : Option String} {rows : List KeyRow}
    {r : KeyRow} (hr : r ∈ rows) (hsvc : r.service ≠ "ACCOUNTING") :
    r ∈ afterAccounting sel rows := by
  cases sel with
  | none => exact hr
  | some s =>
    rw [afterAccounting]
    by_cases hs : s = ""
    · rw [if_pos hs]
      exact hr
    · rw [if_neg hs]
      refine List.mem_append.mpr (Or.inl (List.mem_filter.mpr ⟨hr, ?_⟩))
      simp [hsvc]

theorem afterAccounting_nil (sel : Option String) :
    afterAccounting sel [] = [] := by
  cases sel with
  | none => rfl
  | some s =>
    rw [afterAccounting]
    by_cases hs : s = ""
    · rw [if_pos hs]
    · rw [if_neg hs]
      rfl

theorem afterPt_nil (sel : Option String) : afterPt sel [] = [] := by
  cases sel with
  | none => rfl
  | some s => rfl

/-!
## Structure of the Indian-style digit grouping
-/

/-- The groups produced by the `while` loop of `money_inr`, leading
group first, computed from the *reversed* remaining digit list: peeling
`s[-2:]` repeatedly leaves a leading group of one or two characters. -/
def twoChunksRev : List Char → List (List Char)
  | [] => []
  | [c] => [[c]]
  | a :: b :: rest =>
    if rest = [] then [[b, a]] else twoChunksRev rest ++ [[b, a]]

theorem twoChunksRev_ne_nil : ∀ {l : List Char}, l ≠ [] → twoChunksRev l ≠ []
  | [], h => absurd rfl h
  | [_], _ => by simp [twoChunksRev]
  | a :: b :: rest, _ => by
    by_cases hr : rest = []
    · simp [twoChunksRev, hr]
    · simp [twoChunksRev, hr]

theorem twoChunksRev_structure : ∀ l : List Char, l ≠ [] →
    ∃ h gs, twoChunksRev l = h :: gs ∧ 1 ≤ h.length ∧ h.length ≤ 2 ∧
      ∀ g ∈ gs, g.length = 2
  | [], h => absurd rfl h
  | [c], _ => ⟨[c], [], by simp [twoChunksRev]⟩
  | a :: b :: rest, _ => by
    by_cases hr : rest = []
    · exact ⟨[b, a], [], by simp [twoChunksRev, hr]⟩
    · obtain ⟨h, gs, heq, h1, h2, h3⟩ := twoChunksRev_structure rest hr
      refine ⟨h, gs ++ [[b, a]], by simp [twoChunksRev, hr, heq], h1, h2, ?_⟩
      intro g hg
      rcases List.mem_append.mp hg with hg | hg
      · exact h3 g hg
      · simp only [List.mem_singleton] at hg
        rw [hg]
        rfl

theorem twoChunksRev_flatten : ∀ l : List Char,
    (twoChunksRev l).flatten = l.reverse
  | [] => rfl
  | [c] => rfl
  | a :: b :: rest => by
    by_cases hr : rest = []
    · simp [twoChunksRev, hr]
    · have ih := twoChunksRev_flatten rest
      simp [twoChunksRev, hr, ih]

theorem joinSep_append_single (c : Char) : ∀ (xs : List (List Char))
    (y : List Char), xs ≠ [] →
    joinSep c (xs ++ [y]) = joinSep c xs ++ c :: y
  | [], _, h => absurd rfl h
  | [x], y, _ => by simp [joinSep]
  | x1 :: x2 :: xs, y, _ => by
    have ih := joinSep_append_single c (x2 :: xs) y (by simp)
    simp only [List.cons_append, List.append_eq, joinSep] at ih ⊢
    rw [ih]
    simp [List.append_assoc]

theorem groupLoop_eq : ∀ (rev res : List Char), rev ≠ [] →
    groupLoop rev res = joinSep ',' (twoChunksRev rev) ++ ',' :: res
  | [], _, h => absurd rfl h
  | [c], res, _ => by simp [groupLoop, twoChunksRev, joinSep]
  | a :: b :: rest, res, _ => by
    by_cases hr : rest = []
    · simp [groupLoop, twoChunksRev, hr, joinSep]
    · have ih := groupLoop_eq rest (b :: a :: ',' :: res) hr
      rw [groupLoop, if_neg hr, ih]
      rw [twoChunksRev, if_neg hr,
        joinSep_append_single _ _ _ (twoChunksRev_ne_nil hr)]
      simp [List.append_assoc]

/-- The grouping the (amended) claim describes: last three digits, then
groups of two, with a leading group of one or two digits. -/
def specGroups (l : List Char) : List (List Char) :=
  if l.length ≤ 3 then [l]
  else twoChunksRev (l.take (l.length - 3)).reverse ++ [l.drop (l.length - 3)]

theorem length_take_sub {l : List Char} {k : ℕ} :
    (l.take (l.length - k)).length = l.length - k := by
  simp [List.length_take]

theorem inrGroup_eq_joinSep (l : List Char) :
    inrGroup l = joinSep ',' (specGroups l) := by
  rw [inrGroup, specGroups]
  by_cases h : l.length ≤ 3
  · rw [if_pos h, if_pos h]
    rfl
  · rw [if_neg h, if_neg h]
    have hne : (l.take (l.length - 3)).reverse ≠ [] := by
      intro hcon
      apply_fun List.length at hcon
      rw [List.length_reverse, length_take_sub] at hcon
      simp at hcon
      omega
    rw [groupLoop_eq _ _ hne,
      joinSep_append_single _ _ _ (twoChunksRev_ne_nil hne)]

theorem specGroups_flatten (l : List Char) : (specGroups l).flatten = l := by
  rw [specGroups]
  by_cases h : l.length ≤ 3
  · rw [if_pos h]
    simp
  · rw [if_neg h]
    rw [List.flatten_append, twoChunksRev_flatten, List.reverse_reverse]
    simp [List.take_append_drop]

/-- Splitting a character list at commas (used only to state the claim's
grouping property). -/
def splitCommaAux : List Char → List Char → List (List Char)
  | [], acc => [acc.reverse]
  | c :: rest, acc =>
    if c = ',' then acc.reverse :: splitCommaAux rest []
    else splitCommaAux rest (c :: acc)

def splitComma (l : List Char) : List (List Char) :=
  splitCommaAux l []

/-- Modelled from the claim's words (not from the source): "the last
group has three digits and every preceding group has two, separated by
commas". -/
def claimGrouping (l : List Char) : Bool :=
  let gs := splitComma l
  ((gs.getLast?.map (fun g => g.length == 3)).getD false) &&
    gs.dropLast.all (fun g => g.length == 2)

/-!
## The claims
-/

/-- Claim C1: for every list of quote lines and every `discountPercent`
in `[0, 100]`, with the fixed GST rate 18, `compute_totals` returns the
subtotal as the sum of the given (Include = true) lines' fees,
`discountAmount = round2 (subtotal * dp / 100)`,
`taxableAmount = max (subtotal - discountAmount) 0`,
`gstAmount = round2 (taxableAmount * 18 / 100)`,
`grandTotal = round2 (taxableAmount + gstAmount)`; in particular for
subtotal 5000 and discount 10 it returns 500 / 4500 / 810 / 5310. -/
theorem C1_compute_totals (fees : List ℚ) (dp : ℚ)
    (h0 : 0 ≤ dp) (h1 : dp ≤ 100) :
    compute_totals fees dp =
      (fees.sum,
       round2 (fees.sum * dp / 100),
       max (fees.sum - round2 (fees.sum * dp / 100)) 0,
       round2 (max (fees.sum - round2 (fees.sum * dp / 100)) 0 * 18 / 100),
       round2 (max (fees.sum - round2 (fees.sum * dp / 100)) 0 +
         round2 (max (fees.sum - round2 (fees.sum * dp / 100)) 0 * 18 / 100)))
    ∧ compute_totals [5000] 10 = (5000, 500, 4500, 810, 5310) := by
  constructor
  · rfl
  · norm_num [compute_totals, round2, roundHalfEven, GST_RATE_FIXED]

/-- Witness for C1 at `fees = [5000]`, `dp = 10`. -/
theorem C1_compute_totals_witness :
    compute_totals [5000] 10 = (5000, 500, 4500, 810, 5310) :=
  (C1_compute_totals [5000] 10 (by norm_num) (by norm_num)).2

/-- Claim C2 (counterexample): the claim says that when the operator's
selection for a single-choice category is absent (`None` or empty), all
of that category's rows are dropped.  In the code, `if
selected_accounting:` skips the filter entirely when the selection is
falsy, so with no accounting selection the accounting row *survives* to
the output. -/
theorem C2_single_choice_counterexample :
    build_quotes "N" "LLP"
        [⟨"ACCOUNTING", "MONTHLY ACCOUNTING", "LLP", true⟩] [] none none
      = .ok ([⟨"Accounting", "Monthly Accounting", 0⟩], [], 0)
    ∧ ([(⟨"Accounting", "Monthly Accounting", 0⟩ : QuoteLine)] : List QuoteLine) ≠ [] := by
  constructor
  · exact build_quotes_ok_iff.mpr ⟨by decide, by decide, by simp⟩
  · simp

/-- Claim C2 (amended): when a specific sub-service is selected
(non-empty for Accounting, non-`None` for Profession Tax Returns), every
surviving row of that category carries the normalized selection as its
`SubService`, and rows of other services always survive the stage; but
when the selection is `None` (or, for Accounting, the empty string) the
stage is the identity — the category's rows are all kept, not dropped. -/
theorem C2_single_choice_amended :
    (∀ (rows : List KeyRow) (s : String), s ≠ "" →
      (∀ r ∈ afterAccounting (some s) rows,
        r.service = "ACCOUNTING" → r.subService = normStr s)
      ∧ (∀ r ∈ rows, r.service ≠ "ACCOUNTING" →
          r ∈ afterAccounting (some s) rows)
      ∧ (∀ r ∈ rows, r.service = "ACCOUNTING" → r.subService = normStr s →
          r ∈ afterAccounting (some s) rows))
    ∧ (∀ rows : List KeyRow,
        afterAccounting none rows = rows ∧ afterAccounting (some "") rows = rows)
    ∧ (∀ (rows : List KeyRow) (p : String),
      (∀ r ∈ afterPt (some p) rows,
        r.service = normStr PT_SERVICE → r.subService = normStr p)
      ∧ (∀ r ∈ rows, r.service ≠ normStr PT_SERVICE →
          r ∈ afterPt (some p) rows))
    ∧ (∀ rows : List KeyRow, afterPt none rows = rows) := by
  refine ⟨?_, ?_, ?_, fun rows => rfl⟩
  · intro rows s hs
    refine ⟨?_, ?_, ?_⟩
    · intro r hr hsvc
      rw [afterAccounting, if_neg hs] at hr
      rcases List.mem_append.mp hr with h1 | h1
      · have := (List.mem_filter.mp h1).2
        rw [hsvc] at this
        simp at this
      · have := (List.mem_filter.mp h1).2
        simp only [Bool.and_eq_true, beq_iff_eq] at this
        exact this.2
    · intro r hr hsvc
      exact afterAccounting_keep hr hsvc
    · intro r hr hsvc hsub
      rw [afterAccounting, if_neg hs]
      refine List.mem_append.mpr (Or.inr (List.mem_filter.mpr ⟨hr, ?_⟩))
      simp [hsvc, hsub]
  · intro rows
    refine ⟨rfl, ?_⟩
    rw [afterAccounting, if_pos rfl]
  · intro rows p
    constructor
    · intro r hr hsvc
      rcases List.mem_append.mp hr with h1 | h1
      · have := (List.mem_filter.mp h1).2
        rw [hsvc] at this
        simp at this
      · have := (List.mem_filter.mp h1).2
        simp only [Bool.and_eq_true, beq_iff_eq] at this
        exact this.2
    · intro r hr hsvc
      refine List.mem_append.mpr (Or.inl (List.mem_filter.mpr ⟨hr, ?_⟩))
      simp [hsvc]

/-- Witness for C2 (amended) on concrete rows and selections. -/
theorem C2_single_choice_witness :
    (∀ r ∈ afterAccounting (some "Annual Accounting")
        [(⟨"ACCOUNTING", "MONTHLY ACCOUNTING", "LLP"⟩ : KeyRow),
         ⟨"ACCOUNTING", "ANNUAL ACCOUNTING", "LLP"⟩],
      r.service = "ACCOUNTING" → r.subService = normStr "Annual Accounting")
    ∧ afterAccounting none [(⟨"ACCOUNTING", "MONTHLY ACCOUNTING", "LLP"⟩ : KeyRow)]
        = [⟨"ACCOUNTING", "MONTHLY ACCOUNTING", "LLP"⟩] :=
  ⟨(C2_single_choice_amended.1 _ "Annual Accounting" (by decide)).1,
   (C2_single_choice_amended.2.1 _).1⟩

/-- Claim C3 (counterexample): the claim says the event category keeps
only the rows in the operator-selected set, dropping the whole category
when that set is empty.  `build_quotes` takes no event selection at all:
with no selection anywhere, an applicable event row still lands in the
event bucket (which the claim says should be empty). -/
theorem C3_event_selection_counterexample :
    build_quotes "N" "LLP"
        [⟨"EVENT BASED FILING", "X", "LLP", true⟩] [] none none
      = .ok ([], [⟨"Event Based Filing", "X", 0⟩], 0)
    ∧ ([(⟨"Event Based Filing", "X", 0⟩ : QuoteLine)] : List QuoteLine) ≠ [] := by
  constructor
  · exact build_quotes_ok_iff.mpr ⟨by decide, by decide, by simp⟩
  · simp

/-- Claim C3 (amended): `build_quotes` has no event sub-service
selection; every applicable row of the event category is routed to the
separate event bucket unconditionally, and the main (annual) rows never
contain an event-category row. -/
theorem C3_event_bucket_amended (ct : String) (dfApp : List AppRow)
    (acc pt : Option String) :
    (∀ r ∈ mainKeyRows ct dfApp acc pt, r.service ≠ normStr EVENT_SERVICE)
    ∧ (∀ r ∈ applicableRows ct dfApp, r.service = normStr EVENT_SERVICE →
        r ∈ eventKeyRows ct dfApp acc pt) := by
  constructor
  · intro r hr he
    rw [mainKeyRows, forceKeep] at hr
    have h1 := afterPt_subset (List.mem_filter.mp hr).1
    rw [splitMain] at h1
    have h2 := (List.mem_filter.mp h1).2
    rw [he] at h2
    simp at h2
  · intro r hr he
    rw [eventKeyRows]
    refine List.mem_append.mpr (Or.inl ?_)
    rw [splitEvent]
    refine List.mem_filter.mpr ⟨afterAccounting_keep hr ?_, by simp [he]⟩
    rw [he]
    decide

/-- Witness for C3 (amended) on a concrete event row. -/
theorem C3_event_bucket_witness :
    (∀ r ∈ mainKeyRows "LLP" [⟨"EVENT BASED FILING", "X", "LLP", true⟩] none none,
        r.service ≠ normStr EVENT_SERVICE)
    ∧ (∀ r ∈ applicableRows "LLP" [⟨"EVENT BASED FILING", "X", "LLP", true⟩],
        r.service = normStr EVENT_SERVICE →
          r ∈ eventKeyRows "LLP" [⟨"EVENT BASED FILING", "X", "LLP", true⟩] none none) :=
  C3_event_bucket_amended "LLP" _ none none

/-- Claim C4: in the fee join, a surviving row with no matching fee row
on (Service, SubService, ClientType) is kept with fee 0; and duplicate
keys in the fee table make the join fail loudly (`validate="1:1"` — in
fact any duplicate in either table raises, so in particular one matching
a surviving row does). -/
theorem C4_fee_join (dfIn : List KeyRow) (dfFees : List FeeRow) (r : KeyRow)
    (hr : r ∈ dfIn) :
    ((dfIn.map rowKeyOf).Nodup → (dfFees.map feeKeyOf).Nodup →
      (∀ f ∈ dfFees, feeKeyOf f ≠ rowKeyOf r) →
      ∃ ls, mergeFormat dfIn dfFees = .ok ls ∧ toLine r 0 ∈ ls)
    ∧ (¬ (dfFees.map feeKeyOf).Nodup →
      mergeFormat dfIn dfFees =
        .error "Merge keys are not unique in either left or right dataset") := by
  have hne : dfIn ≠ [] := by
    intro hnil
    rw [hnil] at hr
    cases hr
  constructor
  · intro hL hR hnofee
    refine ⟨_, mergeFormat_valid_eq hne hL hR, ?_⟩
    have h0 := mergeFormat_mem_ok (mergeFormat_valid_eq hne hL hR) hr
    rw [feeFor_no_match hnofee] at h0
    exact h0
  · intro hdup
    exact mergeFormat_dup_error hne (fun hv => hdup hv.2)

/-- Witness for C4: a row with no fee is kept at fee 0; a duplicated fee
key raises. -/
theorem C4_fee_join_witness :
    (∃ ls, mergeFormat [⟨"A", "B", "C"⟩] [] = .ok ls ∧
      toLine ⟨"A", "B", "C"⟩ 0 ∈ ls)
    ∧ mergeFormat [⟨"A", "B", "C"⟩] [⟨"A", "B", "C", 5⟩, ⟨"A", "B", "C", 7⟩]
        = .error "Merge keys are not unique in either left or right dataset" :=
  ⟨(C4_fee_join [⟨"A", "B", "C"⟩] [] ⟨"A", "B", "C"⟩ (by decide)).1
      (by decide) (by decide) (by simp),
   (C4_fee_join [⟨"A", "B", "C"⟩] [⟨"A", "B", "C", 5⟩, ⟨"A", "B", "C", 7⟩]
      ⟨"A", "B", "C"⟩ (by decide)).2 (by decide)⟩

/-- Claim C5 (counterexample): the claim says the final lines are sorted
case-insensitively on the normalized (upper-cased) keys.  The code sorts
*after* display-casing and renaming: `CHANGE OF ADDRESS IN GST` is
renamed to `GST Amendment`, so it sorts after `Filing Abc` (the display
of `FILING ABC`) although its normalized key sorts before `FILING ABC`.
The run below outputs the `FILING ABC` line first — the display order,
the reverse of the normalized-key order. -/
theorem C5_sort_counterexample :
    build_quotes "N" "LLP"
        [⟨"S", "CHANGE OF ADDRESS IN GST", "LLP", true⟩,
         ⟨"S", "FILING ABC", "LLP", true⟩] [] none none
      = .ok ([⟨"S", "Filing Abc", 0⟩, ⟨"S", "GST Amendment", 0⟩], [], 0)
    ∧ displaySub "CHANGE OF ADDRESS IN GST" = "GST Amendment"
    ∧ displaySub "FILING ABC" = "Filing Abc"
    ∧ strLt "CHANGE OF ADDRESS IN GST" "FILING ABC" = true
    ∧ strLt "Filing Abc" "GST Amendment" = true := by
  refine ⟨build_quotes_ok_iff.mpr ⟨by decide, by decide, by simp⟩,
    by decide, by decide, by decide, by decide⟩

/-- Claim C5 (amended): the final line lists (main and event) are sorted
ascending by the *display-cased* (Service, Details) pair — the
title-cased/renamed text the table shows — in code-point order, not by
the normalized upper-cased keys. -/
theorem C5_sorted_display_amended (n ct : String) (dfApp : List AppRow)
    (dfFees : List FeeRow) (acc pt : Option String)
    (m e : List QuoteLine) (t : ℚ)
    (h : build_quotes n ct dfApp dfFees acc pt = .ok (m, e, t)) :
    List.Sorted lineLE m ∧ List.Sorted lineLE e := by
  obtain ⟨hm, he, _⟩ := build_quotes_ok_iff.mp h
  exact ⟨mergeFormat_ok_sorted hm, mergeFormat_ok_sorted he⟩

/-- Witness for C5 (amended) on a concrete run. -/
theorem C5_sorted_display_witness :
    List.Sorted lineLE [(⟨"Accounting", "Monthly Accounting", 0⟩ : QuoteLine)]
    ∧ List.Sorted lineLE ([] : List QuoteLine) :=
  C5_sorted_display_amended "N" "LLP"
    [⟨"ACCOUNTING", "MONTHLY ACCOUNTING", "LLP", true⟩] [] none none
    [⟨"Accounting", "Monthly Accounting", 0⟩] [] 0
    (build_quotes_ok_iff.mpr ⟨by decide, by decide, by simp⟩)

/-- Claim C6: no line whose `SubService` is in the forced set appears in
the annual (main) line set — every main line stems from a surviving row
whose sub-service is not forced; a surviving forced row lands in the
event bucket; and the returned total sums exactly the main lines'
fees (so it never includes a forced row's fee). -/
theorem C6_forced_event (n ct : String) (dfApp : List AppRow)
    (dfFees : List FeeRow) (acc pt : Option String)
    (m e : List QuoteLine) (t : ℚ)
    (h : build_quotes n ct dfApp dfFees acc pt = .ok (m, e, t)) :
    (∀ l ∈ m, ∃ r ∈ mainKeyRows ct dfApp acc pt,
        FORCE_EVENT_SUBS.contains r.subService = false ∧
        l = toLine r (feeFor r dfFees))
    ∧ (∀ r ∈ afterPt pt (splitMain (afterAccounting acc (applicableRows ct dfApp))),
        FORCE_EVENT_SUBS.contains r.subService = true →
        r ∈ eventKeyRows ct dfApp acc pt)
    ∧ t = (m.map QuoteLine.fee).sum := by
  obtain ⟨hm, he, ht⟩ := build_quotes_ok_iff.mp h
  refine ⟨?_, ?_, ht⟩
  · intro l hl
    obtain ⟨r, hr, hline⟩ := mergeFormat_ok_mem hm l hl
    refine ⟨r, hr, ?_, hline⟩
    rw [mainKeyRows, forceKeep] at hr
    have := (List.mem_filter.mp hr).2
    rw [Bool.not_eq_true'] at this
    exact this
  · intro r hr hforce
    rw [eventKeyRows]
    refine List.mem_append.mpr (Or.inr ?_)
    rw [forceMoved]
    exact List.mem_filter.mpr ⟨hr, hforce⟩

/-- Witness for C6 on a concrete run in which a forced row is moved. -/
theorem C6_forced_event_witness :
    (∀ l ∈ ([] : List QuoteLine),
      ∃ r ∈ mainKeyRows "LLP"
          [⟨"TDS RETURNS", "FILING OF TDS RETURN IN FORM 26QB", "LLP", true⟩]
          none none,
        FORCE_EVENT_SUBS.contains r.subService = false ∧
        l = toLine r (feeFor r []))
    ∧ (∀ r ∈ afterPt none (splitMain (afterAccounting none (applicableRows "LLP"
          [⟨"TDS RETURNS", "FILING OF TDS RETURN IN FORM 26QB", "LLP", true⟩]))),
        FORCE_EVENT_SUBS.contains r.subService = true →
        r ∈ eventKeyRows "LLP"
          [⟨"TDS RETURNS", "FILING OF TDS RETURN IN FORM 26QB", "LLP", true⟩]
          none none)
    ∧ (0 : ℚ) = (([] : List QuoteLine).map QuoteLine.fee).sum :=
  C6_forced_event "N" "LLP"
    [⟨"TDS RETURNS", "FILING OF TDS RETURN IN FORM 26QB", "LLP", true⟩] []
    none none []
    [⟨"TDS Returns", "Filing of TDS Return In Form 26QB", 0⟩] 0
    (build_quotes_ok_iff.mpr ⟨by decide, by decide, by simp⟩)

/-- Claim C7: the loader trims and upper-cases `Service`, `SubService`
and `ClientType` (an absent or empty `SubService` becomes the empty
string); `Applicable` is true exactly when its upper-cased string form is
one of `TRUE`, `1`, `YES`; `FeeINR` parses numbers, with unparsable or
absent values becoming 0. -/
theorem C7_loader_normalization (r : RawAppRow) (f : RawFeeRow) :
    (loadAppRow r).service =
      String.mk (upperChars (trimChars ((r.service.getD "").data)))
    ∧ (loadAppRow r).subService =
      String.mk (upperChars (trimChars ((r.subService.getD "").data)))
    ∧ (loadAppRow r).clientType =
      String.mk (upperChars (trimChars ((r.clientType.getD "").data)))
    ∧ (loadFeeRow f).service =
      String.mk (upperChars (trimChars ((f.service.getD "").data)))
    ∧ (loadFeeRow f).subService =
      String.mk (upperChars (trimChars ((f.subService.getD "").data)))
    ∧ (loadFeeRow f).clientType =
      String.mk (upperChars (trimChars ((f.clientType.getD "").data)))
    ∧ normalize_str none = ""
    ∧ normalize_str (some "") = ""
    ∧ ((loadAppRow r).applicable = true ↔
        (String.mk (upperChars ((r.applicable.getD "").data)) = "TRUE" ∨
         String.mk (upperChars ((r.applicable.getD "").data)) = "1" ∨
         String.mk (upperChars ((r.applicable.getD "").data)) = "YES"))
    ∧ (∀ q : ℚ, parseFee (.num q) = q)
    ∧ parseFee .unparsable = 0
    ∧ parseFee .absent = 0
    ∧ (loadFeeRow f).feeINR = parseFee f.feeINR := by
  refine ⟨rfl, rfl, rfl, rfl, rfl, rfl, rfl, rfl, ?_,
    fun q => rfl, rfl, rfl, rfl⟩
  show parseApplicable (r.applicable.getD "") = true ↔ _
  rw [parseApplicable]
  simp [List.contains]

/-- Witness for C7 at a concrete raw row. -/
theorem C7_loader_normalization_witness :
    (loadAppRow ⟨some " gst audit ", none, some "llp", some "yes"⟩).service
        = String.mk (upperChars (trimChars (" gst audit ".data)))
    ∧ ((loadAppRow ⟨some " gst audit ", none, some "llp", some "yes"⟩).applicable
        = true ↔
        (String.mk (upperChars ("yes".data)) = "TRUE" ∨
         String.mk (upperChars ("yes".data)) = "1" ∨
         String.mk (upperChars ("yes".data)) = "YES")) :=
  ⟨(C7_loader_normalization ⟨some " gst audit ", none, some "llp", some "yes"⟩
      ⟨none, none, none, .absent⟩).1,
   (C7_loader_normalization ⟨some " gst audit ", none, some "llp", some "yes"⟩
      ⟨none, none, none, .absent⟩).2.2.2.2.2.2.2.2.1⟩

/-- Claim C8: a client type with zero applicable rows yields an empty
line list, an empty event list and a total of 0, with no error raised. -/
theorem C8_empty_applicable (n ct : String) (dfApp : List AppRow)
    (dfFees : List FeeRow) (acc pt : Option String)
    (h : ∀ r ∈ dfApp, ¬ (r.clientType = normStr ct ∧ r.applicable = true)) :
    build_quotes n ct dfApp dfFees acc pt = .ok ([], [], 0) := by
  have happ : applicableRows ct dfApp = [] := by
    rw [applicableRows]
    have hf : dfApp.filter
        (fun r => r.clientType == normStr ct && r.applicable) = [] := by
      rw [List.filter_eq_nil_iff]
      intro r hr
      have hnot := h r hr
      simp only [Bool.and_eq_true, beq_iff_eq]
      exact hnot
    rw [hf]
    rfl
  have hmain : mainKeyRows ct dfApp acc pt = [] := by
    rw [mainKeyRows, happ, afterAccounting_nil]
    rw [splitMain, List.filter_nil, afterPt_nil, forceKeep, List.filter_nil]
  have hevent : eventKeyRows ct dfApp acc pt = [] := by
    rw [eventKeyRows, happ, afterAccounting_nil]
    rw [splitMain, splitEvent, List.filter_nil, List.filter_nil,
      afterPt_nil, forceMoved, List.filter_nil]
    rfl
  refine build_quotes_ok_iff.mpr ⟨?_, ?_, by simp⟩
  · rw [hmain]
    exact mergeFormat_nil dfFees
  · rw [hevent]
    exact mergeFormat_nil dfFees

/-- Witness for C8: a matrix whose only row belongs to another client
type. -/
theorem C8_empty_applicable_witness :
    build_quotes "N" "LLP" [⟨"X", "Y", "HUF", true⟩] [] none none
      = .ok ([], [], 0) :=
  C8_empty_applicable "N" "LLP" [⟨"X", "Y", "HUF", true⟩] [] none none
    (by decide)

/-- Claim C9: `build_quotes` is deterministic — two runs on equal inputs
produce equal results (the embedding is a pure function of its inputs;
the Python code only reads the input frames, copying before mutating, so
the input tables are left unchanged). -/
theorem C9_deterministic (n1 n2 ct1 ct2 : String) (a1 a2 : List AppRow)
    (f1 f2 : List FeeRow) (s1 s2 p1 p2 : Option String)
    (hn : n1 = n2) (hct : ct1 = ct2) (ha : a1 = a2) (hf : f1 = f2)
    (hs : s1 = s2) (hp : p1 = p2) :
    build_quotes n1 ct1 a1 f1 s1 p1 = build_quotes n2 ct2 a2 f2 s2 p2 := by
  subst hn hct ha hf hs hp
  rfl

/-- Witness for C9 at concrete inputs. -/
theorem C9_deterministic_witness :
    build_quotes "N" "LLP" [⟨"ACCOUNTING", "MONTHLY ACCOUNTING", "LLP", true⟩]
        [] none none
      = build_quotes "N" "LLP"
        [⟨"ACCOUNTING", "MONTHLY ACCOUNTING", "LLP", true⟩] [] none none :=
  C9_deterministic "N" "N" "LLP" "LLP"
    [⟨"ACCOUNTING", "MONTHLY ACCOUNTING", "LLP", true⟩]
    [⟨"ACCOUNTING", "MONTHLY ACCOUNTING", "LLP", true⟩] [] []
    none none none none rfl rfl rfl rfl rfl rfl

/-- Claim C10 (counterexample): the claim says every preceding group has
two digits and the last has three.  `money_inr 1234 = "1,234"` has a
one-digit leading group, and `money_inr 12 = "12"` has a single two-digit
group, so both violate the claimed grouping (checked by `claimGrouping`,
which encodes the claim's words); the claim's own example
`12,34,567` does satisfy it. -/
theorem C10_money_counterexample :
    money_inr (.num 1234) = "1,234"
    ∧ claimGrouping ("1,234".data) = false
    ∧ money_inr (.num 12) = "12"
    ∧ claimGrouping ("12".data) = false
    ∧ money_inr (.num 1234567) = "12,34,567"
    ∧ claimGrouping ("12,34,567".data) = true := by
  have h1 : roundHalfEven 1234 = 1234 := by norm_num [roundHalfEven]
  have h2 : roundHalfEven 12 = 12 := by norm_num [roundHalfEven]
  have h3 : roundHalfEven 1234567 = 1234567 := by norm_num [roundHalfEven]
  refine ⟨?_, by decide, ?_, by decide, ?_, by decide⟩
  · simp [money_inr, h1]
    decide
  · simp [money_inr, h2]
    decide
  · simp [money_inr, h3]
    decide

/-- Claim C10 (amended): `money_inr` renders the rounded absolute value
with Indian-style grouping: at most three digits are rendered without
commas; otherwise the last group has three digits and every preceding
group has two, *except the leading group, which has one or two*;
negative amounts get a leading `-`; unparsable input renders `"0"`. -/
theorem C10_money_amended :
    money_inr .unparsable = "0"
    ∧ (∀ q : ℚ, money_inr (.num q) =
        (if q < 0 then "-" else "") ++
          String.mk (inrGroup (Nat.repr (roundHalfEven q).natAbs).data))
    ∧ (∀ l : List Char,
        inrGroup l = joinSep ',' (specGroups l)
        ∧ (specGroups l).flatten = l
        ∧ (l.length ≤ 3 → specGroups l = [l])
        ∧ (3 < l.length →
            ∃ h mid, specGroups l = h :: (mid ++ [l.drop (l.length - 3)])
              ∧ 1 ≤ h.length ∧ h.length ≤ 2
              ∧ (∀ g ∈ mid, g.length = 2)
              ∧ (l.drop (l.length - 3)).length = 3)) := by
  refine ⟨rfl, ?_, ?_⟩
  · intro q
    rw [money_inr]
    by_cases hq : q < 0
    · rw [if_pos hq, if_pos hq]
    · rw [if_neg hq, if_neg hq]
      simp
  · intro l
    refine ⟨inrGroup_eq_joinSep l, specGroups_flatten l, ?_, ?_⟩
    · intro hle
      rw [specGroups, if_pos hle]
    · intro hgt
      have hne : (l.take (l.length - 3)).reverse ≠ [] := by
        intro hcon
        apply_fun List.length at hcon
        rw [List.length_reverse, length_take_sub] at hcon
        simp at hcon
        omega
      obtain ⟨h, gs, heq, hl1, hl2, hl3⟩ := twoChunksRev_structure _ hne
      refine ⟨h, gs, ?_, hl1, hl2, hl3, ?_⟩
      · rw [specGroups, if_neg (by omega), heq]
        simp
      · rw [List.length_drop]
        omega

/-- Witness for C10 (amended) at the five-digit string `12345`. -/
theorem C10_money_amended_witness :
    ∃ h mid, specGroups ("12345".data) =
        h :: (mid ++ [("12345".data).drop (("12345".data).length - 3)])
      ∧ 1 ≤ h.length ∧ h.length ≤ 2
      ∧ (∀ g ∈ mid, g.length = 2)
      ∧ (("12345".data).drop (("12345".data).length - 3)).length = 3 :=
  (C10_money_amended.2.2 ("12345".data)).2.2.2 (by decide)

end QuotationApp
